import Mathlib

/-!
Verification of the scraping core of `metno_fetch_vaa.py`.

Python strings are modelled as `List Char` (`Str`); the byte-level HTML
tokenizer from the standard library (`html.parser.HTMLParser`) is outside
the repository, so a page is modelled as the stream of events it delivers
to the handler methods (`TagEvent`).  Each parser class's mutable fields
become a state structure, each `handle_*` method a state-transition
function, and `feed` a fold of the step function over the event stream
(performing exactly the field resets the source's `feed` performs).
Python library calls that can fail (list indexing, `strptime`) are
modelled with `Option`, and the per-source fetch loops return the items
added so far together with an optional uncaught exception (`PyErr`).
-/

abbrev Str := List Char

/-- Python whitespace set used by `str.strip` and by the regex class `\s`
(ASCII part). -/
def pyIsSpace (c : Char) : Bool :=
  c = ' ' || c = '\t' || c = '\n' || c = '\r' || c = '\x0b' || c = '\x0c'

/-- Python `str.strip()`. -/
def pyStrip (s : Str) : Str :=
  ((s.dropWhile pyIsSpace).reverse.dropWhile pyIsSpace).reverse

/-- Python `str.rstrip()`. -/
def pyRstrip (s : Str) : Str :=
  (s.reverse.dropWhile pyIsSpace).reverse

/-- Python `str.lstrip()`. -/
def pyLstrip (s : Str) : Str :=
  s.dropWhile pyIsSpace

/-- Python `str.split(sep)` for a one-character separator: `"".split` is
`[""]`, separators at the ends produce empty fields. -/
def pySplit (sep : Char) : Str → List Str
  | [] => [[]]
  | c :: rest =>
    if c = sep then [] :: pySplit sep rest
    else
      match pySplit sep rest with
      | [] => [[c]]
      | h :: t => (c :: h) :: t

/-- Fuelled worker for `pyReplace` (the fuel is an upper bound on the
number of characters consumed; `pyReplace` supplies enough). -/
def pyReplaceGo (pat rep : Str) : Nat → Str → Str
  | 0, s => s
  | _ + 1, [] => []
  | fuel + 1, c :: rest =>
    if pat ≠ [] ∧ pat.isPrefixOf (c :: rest) then
      rep ++ pyReplaceGo pat rep fuel (rest.drop (pat.length - 1))
    else c :: pyReplaceGo pat rep fuel rest

/-- Python `s.replace(pat, rep)`: every non-overlapping occurrence,
left to right (modelled for the non-empty patterns the source uses). -/
def pyReplace (pat rep s : Str) : Str :=
  pyReplaceGo pat rep s.length s

/-- Python `os.path.join(a, b)` for a relative second component (the
source only joins file names containing no slash). -/
def osPathJoin (a b : Str) : Str :=
  if a = [] then b
  else if a.getLast? = some '/' then a ++ b
  else a ++ '/' :: b

/-- Python `dict(attrs)[name]` as an `Option`: the last binding of a
duplicated attribute name wins, as in `dict` construction. -/
def lookupAttr (attrs : List (Str × Str)) (name : Str) : Option Str :=
  (attrs.reverse.find? (fun p => p.1 == name)).map (fun p => p.2)

/-- One event delivered by the HTML tokenizer to a parser's handlers. -/
inductive TagEvent where
  | startTag (tag : Str) (attrs : List (Str × Str))
  | textData (data : Str)
  | endTag (tag : Str)
deriving DecidableEq, Repr

/-- Regex class `\w` (ASCII part). -/
def isWordChar (c : Char) : Bool :=
  ('a' ≤ c && c ≤ 'z') || ('A' ≤ c && c ≤ 'Z') || ('0' ≤ c && c ≤ '9') || c = '_'

/-- Regex class `\d`. -/
def isDigit (c : Char) : Bool :=
  '0' ≤ c && c ≤ '9'

/-- Does `re.search("VA (EXTENDED )?ADVISORY", ...)` match at the head of
`s`?  The optional group makes the position match exactly when one of the
two literal alternatives is a prefix. -/
def vaMatchAt (s : Str) : Bool :=
  "VA EXTENDED ADVISORY".data.isPrefixOf s || "VA ADVISORY".data.isPrefixOf s

/-- Value of `m.start()` for `re.search("VA (EXTENDED )?ADVISORY", s)`: the leftmost
position where the pattern matches. -/
def findVA : Str → Option Nat
  | [] => none
  | c :: rest =>
    if vaMatchAt (c :: rest) then some 0
    else (findVA rest).map (fun n => n + 1)

/-- Index of the first newline character. -/
def firstNewlineIdx : Str → Option Nat
  | [] => none
  | c :: rest =>
    if c = '\n' then some 0 else (firstNewlineIdx rest).map (fun n => n + 1)

/-- Length of the match of `"NXT ADVISORY:\s*\w+.*?\n"` anchored at the
head of `s`, if any.  Backtracking semantics collapse to: after the
literal, the maximal `\s*` run must be followed by a word character, and
the match ends just after the first newline from there (`.` does not
cross newlines, `.*?` is lazy). -/
def nxtMatchLenAt (s : Str) : Option Nat :=
  if "NXT ADVISORY:".data.isPrefixOf s then
    let r := s.drop 13
    let ws := r.takeWhile pyIsSpace
    let w := r.drop ws.length
    match w with
    | [] => none
    | c :: _ =>
      if isWordChar c then
        match firstNewlineIdx w with
        | some i => some (13 + ws.length + i + 1)
        | none => none
      else none
  else none

/-- Value of `m.end()` for `re.search("NXT ADVISORY:\s*\w+.*?\n", s)`: end position
of the leftmost match. -/
def findNXT : Str → Option Nat
  | [] => none
  | c :: rest =>
    match nxtMatchLenAt (c :: rest) with
    | some len => some len
    | none => (findNXT rest).map (fun n => n + 1)

namespace VAAParser

/-- Mutable instance fields of `VAAParser` (`self.active`, `self.text`).
The `self.anchors` field set by `feed` is read by nothing and has no
observable effect, so it is omitted. -/
structure State where
  active : Bool
  text : Str
deriving DecidableEq, Repr

def State.init : State := ⟨false, []⟩

/-- Tags whose close, while active, flushes a newline into the buffer. -/
def structuralTags : List Str :=
  ["h1".data, "h2".data, "h3".data, "div".data, "p".data, "br".data, "code".data]

/-- Model of `VAAParser.handle_data`. -/
def handle_data (s : State) (data : Str) : State :=
  let d := pyStrip data
  if 0 < d.length then
    if s.active then { s with text := s.text ++ d ++ [' '] }
    else
      match findVA d with
      | some k => { active := true, text := d.drop k }
      | none => s
  else s

/-- Model of `VAAParser.handle_endtag`. -/
def handle_endtag (s : State) (tag : Str) : State :=
  if s.active then
    let t1 := if structuralTags.contains tag then pyRstrip s.text ++ ['\n'] else s.text
    match findNXT t1 with
    | some e => { active := false, text := t1.take e }
    | none => { s with text := t1 }
  else s

/-- Dispatch of one tokenizer event (`handle_starttag` is `pass`). -/
def step (s : State) : TagEvent → State
  | .startTag _ _ => s
  | .textData d => handle_data s d
  | .endTag t => handle_endtag s t

/-- Processing a whole event stream.  `VAAParser.feed` resets only the
unused `anchors` field, so re-feeding continues from the current state. -/
def run (s : State) (events : List TagEvent) : State :=
  events.foldl step s

end VAAParser

/-- Does the 16-character timestamp pattern
`\d\d\d\d-\d\d-\d\d \d\d:\d\d` match exactly `s`? -/
def dateShape16 (s : Str) : Bool :=
  match s with
  | [a, b, c, d, '-', e, f, '-', g, h, ' ', i, j, ':', k, l] =>
    isDigit a && isDigit b && isDigit c && isDigit d && isDigit e && isDigit f &&
    isDigit g && isDigit h && isDigit i && isDigit j && isDigit k && isDigit l
  | _ => false

/-- Does `" - (\d\d\d\d-\d\d-\d\d \d\d:\d\d) utc"` match at the head of
`s`? -/
def liOccAt (s : Str) : Bool :=
  " - ".data.isPrefixOf s && dateShape16 ((s.drop 3).take 16) &&
    " utc".data.isPrefixOf (s.drop 19)

/-- The largest `j` such that no newline occurs in the first `j`
characters of `s` and `liOccAt` holds at position `j` — where the greedy
`(.*)` group (which cannot cross a newline) ends when the whole pattern
is tried at the head of `s`. -/
def liGreedy : Str → Option Nat
  | [] => if liOccAt [] then some 0 else none
  | c :: rest =>
    if c = '\n' then (if liOccAt (c :: rest) then some 0 else none)
    else
      match liGreedy rest with
      | some j => some (j + 1)
      | none => if liOccAt (c :: rest) then some 0 else none

/-- Result of `re.search(r"(.*) - (\d\d\d\d-\d\d-\d\d \d\d:\d\d) utc", s)`:
the two captured groups of the leftmost (then greedy) match. -/
def reSearchLi : Str → Option (Str × Str)
  | [] => none
  | c :: rest =>
    match liGreedy (c :: rest) with
    | some j => some ((c :: rest).take j, (((c :: rest).drop j).drop 3).take 16)
    | none => reSearchLi rest

namespace ListParser

/-- Mutable instance fields of `ToulouseFetcher.ListParser`. -/
structure State where
  active : Bool
  href : Str
  text : Str
  anchors : List (Str × Str × Str)
deriving DecidableEq, Repr

def State.init : State := ⟨false, [], [], []⟩

/-- Model of `ToulouseFetcher.ListParser.handle_starttag`.  When the `a` tag has
no `href` attribute the `KeyError` is swallowed and the previous value
kept. -/
def handle_starttag (s : State) (tag : Str) (attrs : List (Str × Str)) : State :=
  let s1 := if tag = "ul".data then { s with active := true } else s
  if s1.active then
    if tag = "a".data then
      match lookupAttr attrs "href".data with
      | some h => { s1 with href := h }
      | none => s1
    else s1
  else s1

/-- Model of `ToulouseFetcher.ListParser.handle_data`. -/
def handle_data (s : State) (data : Str) : State :=
  if s.active then { s with text := s.text ++ pyStrip data } else s

/-- Model of `ToulouseFetcher.ListParser.handle_endtag`. -/
def handle_endtag (s : State) (tag : Str) : State :=
  let s1 := if tag = "ul".data then { s with active := false } else s
  if s1.active then
    if tag = "li".data then
      let s2 :=
        match reSearchLi s1.text with
        | some (volcano, date) =>
          { s1 with anchors := s1.anchors ++ [(s1.href, volcano, date)] }
        | none => s1
      { s2 with href := [], text := [] }
    else s1
  else s1

def step (s : State) : TagEvent → State
  | .startTag t a => handle_starttag s t a
  | .textData d => handle_data s d
  | .endTag t => handle_endtag s t

def run (s : State) (events : List TagEvent) : State :=
  events.foldl step s

/-- Model of `ToulouseFetcher.ListParser.feed`: resets no instance state at all
(only the guarded `decode` happens before tokenizing). -/
def feed (s : State) (events : List TagEvent) : State :=
  run s events

end ListParser

namespace TableParser

/-- One `{'text': ..., 'href': ...}` cell dict built on `</td>`. -/
structure Cell where
  text : Str
  href : Str
deriving DecidableEq, Repr

/-- Mutable instance fields of `LondonFetcher.TableParser`. -/
structure State where
  href : Str
  text : Str
  row : List Cell
  rows : List (List Cell)
deriving DecidableEq, Repr

def State.init : State := ⟨[], [], [], []⟩

/-- Model of `LondonFetcher.TableParser.handle_starttag`. -/
def handle_starttag (s : State) (tag : Str) (attrs : List (Str × Str)) : State :=
  let s1 := if tag = "tbody".data then State.init else s
  if tag = "a".data then
    match lookupAttr attrs "href".data with
    | some h => { s1 with href := h }
    | none => s1
  else s1

/-- Model of `LondonFetcher.TableParser.handle_data`. -/
def handle_data (s : State) (data : Str) : State :=
  { s with text := s.text ++ pyStrip data }

/-- Model of `LondonFetcher.TableParser.handle_endtag`. -/
def handle_endtag (s : State) (tag : Str) : State :=
  let s1 :=
    if tag = "td".data then
      { s with row := s.row ++ [⟨s.text, s.href⟩], href := [], text := [] }
    else s
  if tag = "tr".data then
    if 0 < s1.row.length then { s1 with rows := s1.rows ++ [s1.row], row := [] }
    else { s1 with row := [] }
  else s1

def step (s : State) : TagEvent → State
  | .startTag t a => handle_starttag s t a
  | .textData d => handle_data s d
  | .endTag t => handle_endtag s t

def run (s : State) (events : List TagEvent) : State :=
  events.foldl step s

/-- Model of `LondonFetcher.TableParser.feed`: resets `self.rows` (and nothing
else) before tokenizing. -/
def feed (s : State) (events : List TagEvent) : State :=
  run { s with rows := [] } events

end TableParser

/-- Model of `Fetcher.hasExistingFile`, with the filesystem lookup
(`os.path.exists`) abstracted as a predicate on paths. -/
def hasExistingFile (pathExists : Str → Bool) (output_dir href : Str) : Bool :=
  let file_name := (pySplit '/' href).getLastD []
  let vaa_file := osPathJoin output_dir file_name
  let kml_file :=
    if ".html".data.isSuffixOf vaa_file then pyReplace ".html".data ".kml".data file_name
    else file_name ++ ".kml".data
  pathExists (osPathJoin output_dir kml_file)

/-- Uncaught Python exceptions the fetch loops can raise. -/
inductive PyErr where
  | indexError
  | typeError
  | valueError
deriving DecidableEq, Repr

/-- A `datetime.datetime` value as far as the source observes it. -/
structure PyDate where
  year : Nat
  month : Nat
  day : Nat
  hour : Nat
  minute : Nat
  second : Nat
deriving DecidableEq, Repr

/-- Decimal digits of `n`, zero-padded on the left to width `w`. -/
def padNum (w n : Nat) : Str :=
  let d := Nat.toDigits 10 n
  List.replicate (w - d.length) '0' ++ d

/-- Format `date.strftime("%Y%m%d%H%M")`. -/
def pyDateCompact (d : PyDate) : Str :=
  padNum 4 d.year ++ padNum 2 d.month ++ padNum 2 d.day ++ padNum 2 d.hour ++ padNum 2 d.minute

/-- Format `str(date)`, alias `date.strftime("%Y-%m-%d %H:%M:%S")`. -/
def pyDateFull (d : PyDate) : Str :=
  padNum 4 d.year ++ ['-'] ++ padNum 2 d.month ++ ['-'] ++ padNum 2 d.day ++ [' '] ++
    padNum 2 d.hour ++ [':'] ++ padNum 2 d.minute ++ [':'] ++ padNum 2 d.second

/-- The caller-observable part of one `QListWidgetItem` a fetch adds. -/
structure Item where
  display : Str
  filename : Str
  url : Str
  content : Option Str
  vag : Option Str
deriving DecidableEq, Repr

/-- The `"(converted)"` marker appended to the display text. -/
def convertedMark : Str := "(converted)".data

def toulouseNumberToFetch : Nat := 10
def anchorageNumberToFetch : Nat := 10
def londonNumberToFetch : Nat := 10
def testNumberToFetch : Nat := 1

/-- Body of the `for href, volcano, date in p.anchors` loop of
`ToulouseFetcher.fetch`.  `rm` abstracts `self.read_message` (network
fetch plus `VAAParser`), `hf` abstracts
`self.hasExistingFile(output_dir, ·)`.  Returns the items added before
the loop finished, broke at the fetch limit, or raised.  `info[-2]`
raises `IndexError` when the href has fewer than two `/`-separated
segments. -/
def toulouseAux (rm : Str → Str) (hf : Str → Bool) :
    Nat → List (Str × Str × Str) → List Item × Option PyErr
  | _, [] => ([], none)
  | count, (href, volcano, date) :: rest =>
    let info := pySplit '/' href
    match info.reverse[1]? with
    | none => ([], some .indexError)
    | some seg =>
      let filename := "toulouse.".data ++ seg ++ ".html".data
      let display0 := date ++ " (".data ++ volcano ++ [')']
      let item : Item :=
        { display := if hf filename then display0 ++ [' '] ++ convertedMark else display0
          filename := filename
          url := href
          content := some (rm href)
          vag := some (List.intercalate "/".data (info.take (info.length - 2)) ++
                        ['/'] ++ seg ++ "_vag.png".data) }
      if count + 1 = toulouseNumberToFetch then ([item], none)
      else
        (item :: (toulouseAux rm hf (count + 1) rest).1,
         (toulouseAux rm hf (count + 1) rest).2)

def toulouseLoop (rm : Str → Str) (hf : Str → Bool)
    (anchors : List (Str × Str × Str)) : List Item × Option PyErr :=
  toulouseAux rm hf 0 anchors

/-- Body of the `for href, text, table_text in p.anchors` loop of
`AnchorageFetcher.fetch`.  The filter evaluates left to right with
short-circuiting, so `href.split("/")[-2]` raises `IndexError` for a
short href only when the joined anchor text is `"X"`.  Each element of
`table_text` is a *list* of strings (`Parser.handle_endtag` appends
`self.text`, a list), so `strptime(table_text[0], ...)` raises
`TypeError` whenever it is reached (`IndexError` when the row is empty);
the item-building code below it is unreachable. -/
def anchorageAux : List (Str × List Str × List (List Str)) → List Item × Option PyErr
  | [] => ([], none)
  | (href, text, tableRow) :: rest =>
    if text.flatten = "X".data then
      match (pySplit '/' href).reverse[1]? with
      | none => ([], some .indexError)
      | some seg =>
        if seg = "VAA".data then
          match tableRow with
          | [] => ([], some .indexError)
          | _ :: _ => ([], some .typeError)
        else anchorageAux rest
    else anchorageAux rest

def anchorageLoop (anchors : List (Str × List Str × List (List Str))) :
    List Item × Option PyErr :=
  anchorageAux anchors

/-- Body of the `for row in p.rows` loop of `LondonFetcher.fetch`.
`sp` abstracts `datetime.datetime.strptime(·, "%H:%M on %d %b %Y")`
(`none` means it raises), `uj` abstracts
`urllib.parse.urljoin(self.url, ·)`, `rm` abstracts `self.read_message`,
`hf` abstracts `self.hasExistingFile(output_dir, ·)`.  The bare
`except:` around the `strptime` call also swallows the `IndexError` of
`row[1]`; `row[0]`, `row[2]` and `row[3]` are unguarded. -/
def londonAux (sp : Str → Option PyDate) (uj rm : Str → Str) (hf : Str → Bool) :
    Nat → List (List TableParser.Cell) → List Item × Option PyErr
  | _, [] => ([], none)
  | count, row :: rest =>
    match row[0]? with
    | none => ([], some .indexError)
    | some c0 =>
      match row[1]? with
      | none => londonAux sp uj rm hf count rest
      | some c1 =>
        match sp c1.text with
        | none => londonAux sp uj rm hf count rest
        | some date =>
          match row[2]? with
          | none => ([], some .indexError)
          | some c2 =>
            match row[3]? with
            | none => ([], some .indexError)
            | some c3 =>
              let advisory_url := uj c2.href
              let display0 := pyDateFull date ++ " (".data ++ c0.text ++ [')']
              let filename := "london.".data ++ pyDateCompact date
              let item : Item :=
                { display := if hf filename then display0 ++ [' '] ++ convertedMark else display0
                  filename := filename
                  url := advisory_url
                  content := some (rm advisory_url)
                  vag := some (uj c3.href) }
              if count + 1 = londonNumberToFetch then ([item], none)
              else
                (item :: (londonAux sp uj rm hf (count + 1) rest).1,
                 (londonAux sp uj rm hf (count + 1) rest).2)

def londonLoop (sp : Str → Option PyDate) (uj rm : Str → Str) (hf : Str → Bool)
    (rows : List (List TableParser.Cell)) : List Item × Option PyErr :=
  londonAux sp uj rm hf 0 rows

/-- The `for line in lines` scan of `TestFetcher.fetch`: tracks the
current `(date, volcano)` pair; a `DTG:` line whose remainder fails
`strptime(·, "%Y%m%d/%H%MZ")` (`sp` returns `none`) raises
`ValueError`. -/
def testFetchLines (sp : Str → Option PyDate) :
    PyDate → Str → List Str → Except PyErr (PyDate × Str)
  | d, v, [] => .ok (d, v)
  | d, v, line :: rest =>
    if "DTG:".data.isPrefixOf line then
      match sp (pyLstrip (line.drop 4)) with
      | none => .error .valueError
      | some d2 =>
        if "VOLCANO:".data.isPrefixOf line then
          testFetchLines sp d2 (pyLstrip (line.drop 8)) rest
        else testFetchLines sp d2 v rest
    else
      if "VOLCANO:".data.isPrefixOf line then
        testFetchLines sp d (pyLstrip (line.drop 8)) rest
      else testFetchLines sp d v rest

def testUrl : Str :=
  "https://github.com/metno/fetch-vaa/raw/master/files/london-201511101500.vaa.txt".data

/-- Model of `TestFetcher.fetch` after the page text has been obtained: scans the
lines and adds exactly one item (or raises).  `now` abstracts
`datetime.datetime.now()`. -/
def testFetch (sp : Str → Option PyDate) (hf : Str → Bool) (now : PyDate)
    (text : Str) : List Item × Option PyErr :=
  match testFetchLines sp now "Unknown".data (pySplit '\n' text) with
  | .error e => ([], some e)
  | .ok (d, v) =>
    let display0 := pyDateFull d ++ " (".data ++ v ++ [')']
    let filename := "test.".data ++ pyDateCompact d
    ([{ display := if hf filename then display0 ++ [' '] ++ convertedMark else display0
        filename := filename
        url := testUrl
        content := some text
        vag := none }], none)

/-- An event whose text (if it is a text event) does not, once stripped,
contain the activation pattern `"VA (EXTENDED )?ADVISORY"`. -/
def eventNoHeader : TagEvent → Bool
  | .textData d => (findVA (pyStrip d)).isNone
  | _ => true

/-- An event that leaves an active `VAAParser` state untouched: a start
tag, a whitespace-only text chunk, or the close of a non-structural
tag. -/
def vaaNeutral : TagEvent → Bool
  | .startTag _ _ => true
  | .textData d => (pyStrip d).isEmpty
  | .endTag t => !(VAAParser.structuralTags.contains t)

lemma VAAParser.step_inactive (s : VAAParser.State) (e : TagEvent)
    (hs : s.active = false) (he : eventNoHeader e = true) :
    VAAParser.step s e = s := by
  cases e with
  | startTag t a => rfl
  | textData d =>
    have h : findVA (pyStrip d) = none := by
      simpa [eventNoHeader, Option.isNone_iff_eq_none] using he
    simp [VAAParser.step, VAAParser.handle_data, hs, h]
  | endTag t => simp [VAAParser.step, VAAParser.handle_endtag, hs]

lemma VAAParser.run_inactive (s : VAAParser.State) (E : List TagEvent)
    (hs : s.active = false) (hE : E.all eventNoHeader = true) :
    VAAParser.run s E = s := by
  induction E with
  | nil => rfl
  | cons e rest ih =>
    rw [List.all_cons, Bool.and_eq_true] at hE
    show VAAParser.run (VAAParser.step s e) rest = s
    rw [VAAParser.step_inactive s e hs hE.1]
    exact ih hE.2

lemma VAAParser.step_neutral_active (s : VAAParser.State) (e : TagEvent)
    (hs : s.active = true) (ht : findNXT s.text = none) (he : vaaNeutral e = true) :
    VAAParser.step s e = s := by
  cases e with
  | startTag t a => rfl
  | textData d =>
    have h : pyStrip d = [] := by
      simpa [vaaNeutral, List.isEmpty_iff] using he
    simp [VAAParser.step, VAAParser.handle_data, h]
  | endTag t =>
    have h : ¬ t ∈ VAAParser.structuralTags := by
      simpa [vaaNeutral] using he
    obtain ⟨sa, st⟩ := s
    simp only [VAAParser.step, VAAParser.handle_endtag] at *
    subst hs
    simp [h, ht]

lemma VAAParser.run_neutral_active (s : VAAParser.State) (M : List TagEvent)
    (hs : s.active = true) (ht : findNXT s.text = none) (hM : M.all vaaNeutral = true) :
    VAAParser.run s M = s := by
  induction M with
  | nil => rfl
  | cons e rest ih =>
    rw [List.all_cons, Bool.and_eq_true] at hM
    show VAAParser.run (VAAParser.step s e) rest = s
    rw [VAAParser.step_neutral_active s e hs ht hM.1]
    exact ih hM.2

/-- C1 (amended): once the machine is INACTIVE (in particular after the
terminal pattern has matched), no later event changes the state — and
hence nothing more is captured — as long as no later text chunk again
contains the `"VA (EXTENDED )?ADVISORY"` activation pattern.  (The
unamended claim is false: such a chunk re-activates the machine and
replaces the buffer, see the counterexample.) -/
theorem c1_inactive_captures_nothing_without_new_header
    (s : VAAParser.State) (E : List TagEvent)
    (hs : s.active = false) (hE : E.all eventNoHeader = true) :
    VAAParser.run s E = s :=
  VAAParser.run_inactive s E hs hE

/-- C1 witness: a concrete post-terminal state is untouched by further
headerless events. -/
theorem c1_witness :
    VAAParser.run ⟨false, "NXT ADVISORY: DONE\n".data⟩
        [TagEvent.textData "later text".data, TagEvent.endTag "p".data]
      = ⟨false, "NXT ADVISORY: DONE\n".data⟩ :=
  c1_inactive_captures_nothing_without_new_header
    ⟨false, "NXT ADVISORY: DONE\n".data⟩
    [TagEvent.textData "later text".data, TagEvent.endTag "p".data]
    rfl (by decide)

/-- C1 counterexample: after the terminal pattern has matched and the
machine is back to INACTIVE (after the first two events), a later chunk
containing `"VA ADVISORY"` changes the captured buffer again, so text
from the remainder of the page *is* captured. -/
theorem c1_counterexample :
    (VAAParser.run VAAParser.State.init
        [TagEvent.textData "VA ADVISORY one NXT ADVISORY: X".data,
         TagEvent.endTag "p".data]).active = false ∧
    (VAAParser.run VAAParser.State.init
        [TagEvent.textData "VA ADVISORY one NXT ADVISORY: X".data,
         TagEvent.endTag "p".data,
         TagEvent.textData "VA ADVISORY two".data]).text
      ≠ (VAAParser.run VAAParser.State.init
          [TagEvent.textData "VA ADVISORY one NXT ADVISORY: X".data,
           TagEvent.endTag "p".data]).text := by
  decide

/-- The spec's example page text for the Message-Body Extractor. -/
def c6junk : Str :=
  "...junk... VA ADVISORY Ash cloud observed at FL350. NXT ADVISORY: NO FURTHER ADVISORIES\nmore text after".data

/-- The extraction result the spec expects on the example. -/
def c6expected : Str :=
  "VA ADVISORY Ash cloud observed at FL350. NXT ADVISORY: NO FURTHER ADVISORIES\n".data

/-- C6 counterexample: on a page consisting of exactly the example text
and no tags, the terminal truncation (which only runs on a tag close)
never fires, so the result keeps `"more text after"` — the claim's
expected result is not produced for every such page. -/
theorem c6_counterexample :
    (VAAParser.run VAAParser.State.init [TagEvent.textData c6junk]).text
      = "VA ADVISORY Ash cloud observed at FL350. NXT ADVISORY: NO FURTHER ADVISORIES\nmore text after".data ∧
    (VAAParser.run VAAParser.State.init [TagEvent.textData c6junk]).text ≠ c6expected := by
  decide

/-- C6 (amended): on the spec's example page, *provided a tag close
follows the text* (here a `</p>`), the extracted text starts exactly at
`"VA ADVISORY"` and ends immediately after the newline terminating
`"NXT ADVISORY: NO FURTHER ADVISORIES"`, excluding `"more text after"`;
and on every page none of whose text chunks contains the
`"VA (EXTENDED )?ADVISORY"` pattern, the result is the empty string. -/
theorem c6_extraction_example_and_empty_when_no_header
    (E : List TagEvent) (hE : E.all eventNoHeader = true) :
    (VAAParser.run VAAParser.State.init
        [TagEvent.textData c6junk, TagEvent.endTag "p".data]).text = c6expected ∧
    (VAAParser.run VAAParser.State.init E).text = [] := by
  refine ⟨by decide, ?_⟩
  rw [VAAParser.run_inactive VAAParser.State.init E rfl hE]
  rfl

/-- C6 witness: the theorem applied to a concrete headerless page. -/
theorem c6_witness :
    (VAAParser.run VAAParser.State.init
        [TagEvent.textData c6junk, TagEvent.endTag "p".data]).text = c6expected ∧
    (VAAParser.run VAAParser.State.init
        [TagEvent.textData "no advisories here".data]).text = [] :=
  c6_extraction_example_and_empty_when_no_header
    [TagEvent.textData "no advisories here".data] (by decide)

/-- C10 counterexample: the claim's condition only excludes *structural*
end tags between the activating chunk and the next chunk, but a
non-structural end tag (here `</i>`) still runs the terminal search; if
the activating chunk itself contained a newline completing the terminal
pattern, the machine deactivates and the next chunk is not concatenated
at all. -/
theorem c10_counterexample :
    (VAAParser.run VAAParser.State.init
        [TagEvent.textData "VA ADVISORY NXT ADVISORY: X\nY".data,
         TagEvent.endTag "i".data,
         TagEvent.textData "hello".data]).text
      = "VA ADVISORY NXT ADVISORY: X\n".data ∧
    (VAAParser.run VAAParser.State.init
        [TagEvent.textData "VA ADVISORY NXT ADVISORY: X\nY".data,
         TagEvent.endTag "i".data,
         TagEvent.textData "hello".data]).text
      ≠ "VA ADVISORY NXT ADVISORY: X\nY".data ++ "hello".data := by
  decide

/-- C10 (amended): the activating chunk is stored without a trailing
separator, so when the next non-empty chunk arrives before any
structural end tag *and no intervening end tag triggers the terminal
condition* (guaranteed here by the captured text containing no terminal
match), it is concatenated directly, with no space or newline between
them; every subsequent pair of chunks is separated by a single space. -/
theorem c10_activating_chunk_not_space_terminated
    (d1 d2 d3 : Str) (M : List TagEvent) (k : Nat)
    (h1 : findVA (pyStrip d1) = some k)
    (hM : M.all vaaNeutral = true)
    (hterm : findNXT ((pyStrip d1).drop k) = none)
    (h2 : pyStrip d2 ≠ []) (h3 : pyStrip d3 ≠ []) :
    (VAAParser.run VAAParser.State.init
        (TagEvent.textData d1 :: M ++ [TagEvent.textData d2, TagEvent.textData d3])).text
      = (pyStrip d1).drop k ++ pyStrip d2 ++ [' '] ++ pyStrip d3 ++ [' '] := by
  have hd1 : pyStrip d1 ≠ [] := by
    intro h
    rw [h] at h1
    simp [findVA] at h1
  have hstep1 : VAAParser.step VAAParser.State.init (TagEvent.textData d1)
      = ⟨true, (pyStrip d1).drop k⟩ := by
    simp [VAAParser.step, VAAParser.handle_data, VAAParser.State.init, h1,
      List.length_pos.mpr hd1]
  show (VAAParser.run (VAAParser.step VAAParser.State.init (TagEvent.textData d1))
      (M ++ [TagEvent.textData d2, TagEvent.textData d3])).text = _
  rw [hstep1]
  have hrunM : List.foldl VAAParser.step ⟨true, (pyStrip d1).drop k⟩ M
      = ⟨true, (pyStrip d1).drop k⟩ :=
    VAAParser.run_neutral_active ⟨true, (pyStrip d1).drop k⟩ M rfl hterm hM
  rw [VAAParser.run, List.foldl_append, hrunM]
  show (VAAParser.step (VAAParser.step ⟨true, (pyStrip d1).drop k⟩
      (TagEvent.textData d2)) (TagEvent.textData d3)).text = _
  simp [VAAParser.step, VAAParser.handle_data, List.length_pos.mpr h2,
    List.length_pos.mpr h3, List.append_assoc]

lemma ListParser.handle_starttag_anchors (s : ListParser.State) (t : Str)
    (ats : List (Str × Str)) :
    (ListParser.handle_starttag s t ats).anchors = s.anchors := by
  obtain ⟨act, hr, tx, a⟩ := s
  unfold ListParser.handle_starttag
  by_cases hu : t = "ul".data <;> by_cases ha : t = "a".data <;>
    cases act <;> cases lookupAttr ats "href".data <;>
    simp [hu, ha]

lemma ListParser.handle_data_anchors (s : ListParser.State) (d : Str) :
    (ListParser.handle_data s d).anchors = s.anchors := by
  obtain ⟨act, hr, tx, a⟩ := s
  unfold ListParser.handle_data
  cases act <;> simp

lemma ListParser.handle_endtag_anchors (s : ListParser.State) (t : Str) :
    ∃ l, (ListParser.handle_endtag s t).anchors = s.anchors ++ l := by
  obtain ⟨act, hr, tx, a⟩ := s
  unfold ListParser.handle_endtag
  rcases hm : reSearchLi tx with _ | ⟨v, d⟩ <;>
    by_cases hu : t = "ul".data <;> by_cases hl : t = "li".data <;>
    cases act <;> simp [hu, hl, hm]

lemma ListParser.step_anchors_grow (s : ListParser.State) (e : TagEvent) :
    ∃ l, (ListParser.step s e).anchors = s.anchors ++ l := by
  cases e with
  | startTag t ats => exact ⟨[], by simp [ListParser.step, ListParser.handle_starttag_anchors]⟩
  | textData d => exact ⟨[], by simp [ListParser.step, ListParser.handle_data_anchors]⟩
  | endTag t => exact ListParser.handle_endtag_anchors s t

lemma ListParser.run_anchors_grow (E : List TagEvent) :
    ∀ s : ListParser.State, ∃ l, (ListParser.run s E).anchors = s.anchors ++ l := by
  induction E with
  | nil => exact fun s => ⟨[], by simp [ListParser.run]⟩
  | cons e rest ih =>
    intro s
    obtain ⟨l1, h1⟩ := ListParser.step_anchors_grow s e
    obtain ⟨l2, h2⟩ := ih (ListParser.step s e)
    refine ⟨l1 ++ l2, ?_⟩
    show (ListParser.run (ListParser.step s e) rest).anchors = _
    rw [h2, h1, List.append_assoc]

/-- The example unordered-list page from the spec, as an event stream. -/
def ulExample : List TagEvent :=
  [TagEvent.startTag "ul".data [],
   TagEvent.startTag "li".data [],
   TagEvent.startTag "a".data [("href".data, "/adv/123.html".data)],
   TagEvent.textData "Volcano X - 2020-05-01 12:00 utc".data,
   TagEvent.endTag "a".data,
   TagEvent.endTag "li".data,
   TagEvent.endTag "ul".data]

/-- C4 counterexample: `ToulouseFetcher.ListParser.feed` resets no
instance state, so feeding the same buffer a second time on the same
instance does not reproduce the first run's `anchors` — it doubles
them. -/
theorem c4_counterexample :
    (ListParser.feed (ListParser.feed ListParser.State.init ulExample) ulExample).anchors
      ≠ (ListParser.feed ListParser.State.init ulExample).anchors ∧
    (ListParser.feed ListParser.State.init ulExample).anchors
      = [("/adv/123.html".data, "Volcano X".data, "2020-05-01 12:00".data)] := by
  decide

/-- C4 (amended): re-running an extractor's `feed` on the same instance
is *not* guaranteed to reproduce the first result, because `feed` does
not reset the accumulated state; what does hold is that the entry
accumulator only ever grows — after any further `feed` the previously
collected anchors remain a prefix — and on the spec's example buffer the
second same-instance run yields exactly two copies of the first run's
anchors (identical results are only obtained by re-running from a fresh
initial state). -/
theorem c4_feed_accumulates_instead_of_resetting :
    (∀ (s : ListParser.State) (E : List TagEvent),
        s.anchors <+: (ListParser.feed s E).anchors) ∧
    (ListParser.feed (ListParser.feed ListParser.State.init ulExample) ulExample).anchors
      = (ListParser.feed ListParser.State.init ulExample).anchors
        ++ (ListParser.feed ListParser.State.init ulExample).anchors := by
  constructor
  · intro s E
    obtain ⟨l, h⟩ := ListParser.run_anchors_grow E s
    exact ⟨l, h.symm⟩
  · decide

/-- C7: on `</li>` while inside a `<ul>`, an item whose accumulated text
has no match for `"(.*) - (\d\d\d\d-\d\d-\d\d \d\d:\d\d) utc"` produces
no entry (the accumulators are just reset), and a matching item appends
exactly one entry `(href, volcano, date)` with `volcano` the description
group and `date` the timestamp group. -/
theorem c7_list_item_match_determines_entry
    (s : ListParser.State) (hs : s.active = true) :
    (reSearchLi s.text = none →
      ListParser.handle_endtag s "li".data = { s with href := [], text := [] }) ∧
    (∀ v d, reSearchLi s.text = some (v, d) →
      ListParser.handle_endtag s "li".data
        = { s with href := [], text := [],
                   anchors := s.anchors ++ [(s.href, v, d)] }) := by
  constructor
  · intro h
    simp [ListParser.handle_endtag, hs, h]
  · intro v d h
    simp [ListParser.handle_endtag, hs, h]

/-- C7 witness: the spec's example item text with href `/adv/123.html`
yields exactly the entry `("/adv/123.html", "Volcano X",
"2020-05-01 12:00")`. -/
theorem c7_witness :
    ListParser.handle_endtag
        ⟨true, "/adv/123.html".data, "Volcano X - 2020-05-01 12:00 utc".data, []⟩ "li".data
      = ⟨true, [], [],
          [("/adv/123.html".data, "Volcano X".data, "2020-05-01 12:00".data)]⟩ := by
  have h := (c7_list_item_match_determines_entry
      ⟨true, "/adv/123.html".data, "Volcano X - 2020-05-01 12:00 utc".data, []⟩ rfl).2
      "Volcano X".data "2020-05-01 12:00".data (by decide)
  simpa using h

/-- The candidate file name C9 says the existing-file check looks for,
derived from the last path segment of the href (stated from the claim's
words, to be compared with the source's computation). -/
def derivedKmlName (seg : Str) : Str :=
  if ".html".data.isSuffixOf seg then pyReplace ".html".data ".kml".data seg
  else seg ++ ".kml".data

lemma suffix_of_suffix_length_le {α : Type} {l1 l2 l : List α}
    (h1 : l1 <:+ l) (h2 : l2 <:+ l) (hle : l1.length ≤ l2.length) : l1 <:+ l2 := by
  obtain ⟨p1, hp1⟩ := h1
  obtain ⟨p2, hp2⟩ := h2
  have hlen : p2.length ≤ p1.length := by
    have e1 := congrArg List.length hp1
    have e2 := congrArg List.length hp2
    simp only [List.length_append] at e1 e2
    omega
  have hd1 : l1 = l.drop p1.length := by rw [← hp1, List.drop_left]
  have hd2 : l2 = l.drop p2.length := by rw [← hp2, List.drop_left]
  rw [hd1, hd2]
  have h3 : l.drop p1.length = (l.drop p2.length).drop (p1.length - p2.length) := by
    rw [List.drop_drop]
    congr 1
    omega
  rw [h3]
  exact List.drop_suffix _ _

lemma suffix_append_cons_iff {t a b : Str} {c : Char} (hc : c ∉ t) :
    t <:+ a ++ c :: b ↔ t <:+ b := by
  constructor
  · intro h
    rcases le_or_lt t.length b.length with hle | hlt
    · have hb : b <:+ a ++ c :: b :=
        (List.suffix_cons c b).trans (List.suffix_append a (c :: b))
      exact suffix_of_suffix_length_le h hb hle
    · exfalso
      have hcb : c :: b <:+ a ++ c :: b := List.suffix_append a (c :: b)
      have hct : c :: b <:+ t := by
        refine suffix_of_suffix_length_le hcb h ?_
        simpa using hlt
      exact hc (hct.subset (List.mem_cons_self c b))
  · intro h
    exact h.trans ((List.suffix_cons c b).trans (List.suffix_append a (c :: b)))

/-- A suffix containing no separator character lies entirely inside the
joined-on component, so `endswith` commutes with `os.path.join`. -/
lemma isSuffixOf_osPathJoin (t dir fn : Str) (hc : '/' ∉ t) :
    t.isSuffixOf (osPathJoin dir fn) = t.isSuffixOf fn := by
  unfold osPathJoin
  by_cases hd : dir = []
  · simp [hd]
  · rw [if_neg hd]
    by_cases hl : dir.getLast? = some '/'
    · rw [if_pos hl]
      obtain ⟨x, hx⟩ := List.getLast?_eq_some_iff.mp hl
      subst hx
      have hx2 : (x ++ ['/']) ++ fn = x ++ '/' :: fn := by simp
      rw [hx2, Bool.eq_iff_iff, List.isSuffixOf_iff_suffix, List.isSuffixOf_iff_suffix]
      exact suffix_append_cons_iff hc
    · rw [if_neg hl]
      rw [Bool.eq_iff_iff, List.isSuffixOf_iff_suffix, List.isSuffixOf_iff_suffix]
      exact suffix_append_cons_iff hc

/-- C9: `Fetcher.hasExistingFile(output_dir, href)` is true exactly when
a file exists at the path obtained by joining the output directory with
the name derived from the last path segment of `href`: all occurrences
of `".html"` replaced by `".kml"` when the segment ends in `".html"`,
otherwise the segment with `".kml"` appended — never the advisory file
itself. -/
theorem c9_hasExistingFile_checks_derived_kml (pathExists : Str → Bool)
    (output_dir href : Str) :
    hasExistingFile pathExists output_dir href
      = pathExists (osPathJoin output_dir
          (derivedKmlName ((pySplit '/' href).getLastD []))) := by
  simp only [hasExistingFile, derivedKmlName,
    isSuffixOf_osPathJoin ".html".data output_dir ((pySplit '/' href).getLastD [])
      (by decide)]

/-- An event that is not the opening of a `tbody` element. -/
def notTbodyStart : TagEvent → Bool
  | .startTag t _ => !(t == "tbody".data)
  | _ => true

lemma TableParser.step_tbody (s : TableParser.State) (attrs : List (Str × Str)) :
    TableParser.step s (TagEvent.startTag "tbody".data attrs) = TableParser.State.init := by
  simp [TableParser.step, TableParser.handle_starttag]

/-- C8: the final `rows` of the table parser depend only on the events
after the last `<tbody>` start (each `<tbody>` start resets all
accumulation, so a page with two tables keeps only the last), and on
`</tr>` a row is appended exactly when it has at least one completed
cell. -/
theorem c8_last_tbody_wins_and_empty_rows_dropped :
    (∀ (s : TableParser.State) (A : List TagEvent) (attrs : List (Str × Str))
        (B : List TagEvent), B.all notTbodyStart = true →
        (TableParser.run s (A ++ TagEvent.startTag "tbody".data attrs :: B)).rows
          = (TableParser.run TableParser.State.init
              (TagEvent.startTag "tbody".data attrs :: B)).rows) ∧
    (∀ s : TableParser.State,
        (TableParser.handle_endtag s "tr".data).rows
          = if s.row = [] then s.rows else s.rows ++ [s.row]) := by
  constructor
  · intro s A attrs B _
    have h1 : TableParser.run s (A ++ TagEvent.startTag "tbody".data attrs :: B)
        = TableParser.run (TableParser.step (TableParser.run s A)
            (TagEvent.startTag "tbody".data attrs)) B := by
      rw [TableParser.run, List.foldl_append]
      rfl
    have h2 : TableParser.run TableParser.State.init
        (TagEvent.startTag "tbody".data attrs :: B)
        = TableParser.run (TableParser.step TableParser.State.init
            (TagEvent.startTag "tbody".data attrs)) B := rfl
    rw [h1, h2, TableParser.step_tbody, TableParser.step_tbody]
  · intro s
    by_cases h : s.row = []
    · simp [TableParser.handle_endtag, h]
    · simp [TableParser.handle_endtag, h, List.length_pos.mpr h]

/-- C8 witness: a page with two `tbody` elements keeps only the rows of
the second one. -/
theorem c8_witness :
    (TableParser.run TableParser.State.init
        ([TagEvent.startTag "tbody".data [], TagEvent.textData "old".data,
          TagEvent.endTag "td".data, TagEvent.endTag "tr".data]
          ++ TagEvent.startTag "tbody".data [] ::
            [TagEvent.textData "new".data, TagEvent.endTag "td".data,
             TagEvent.endTag "tr".data])).rows
      = (TableParser.run TableParser.State.init
          (TagEvent.startTag "tbody".data [] ::
            [TagEvent.textData "new".data, TagEvent.endTag "td".data,
             TagEvent.endTag "tr".data])).rows :=
  c8_last_tbody_wins_and_empty_rows_dropped.1 TableParser.State.init
    [TagEvent.startTag "tbody".data [], TagEvent.textData "old".data,
     TagEvent.endTag "td".data, TagEvent.endTag "tr".data] []
    [TagEvent.textData "new".data, TagEvent.endTag "td".data, TagEvent.endTag "tr".data]
    (by decide)

/-- C2 counterexample: the Toulouse assembly loop raises `IndexError`
for an entry whose href has fewer than two path segments
(`info[-2]` in the filename derivation), so "no core operation raises"
is false. -/
theorem c2_counterexample :
    toulouseLoop (fun _ => []) (fun _ => false) [("x".data, "V".data, "d".data)]
      = ([], some PyErr.indexError) := by
  decide

lemma toulouseAux_no_err (rm : Str → Str) (hf : Str → Bool)
    (l : List (Str × Str × Str))
    (h : ∀ a ∈ l, 2 ≤ (pySplit '/' a.1).length) :
    ∀ count, (toulouseAux rm hf count l).2 = none := by
  induction l with
  | nil => intro count; rfl
  | cons a rest ih =>
    intro count
    obtain ⟨href, volcano, date⟩ := a
    have h2 : 2 ≤ (pySplit '/' href).length :=
      h (href, volcano, date) (List.mem_cons_self _ _)
    have hlt : 1 < (pySplit '/' href).reverse.length := by simpa using h2
    have hseg : (pySplit '/' href).reverse[1]? = some ((pySplit '/' href).reverse[1]) :=
      List.getElem?_eq_getElem hlt
    simp only [toulouseAux, hseg]
    by_cases hb : count + 1 = toulouseNumberToFetch
    · simp [hb]
    · simp only [hb, if_false]
      exact ih (fun x hx => h x (List.mem_cons_of_mem _ hx)) (count + 1)

lemma londonAux_no_err (sp : Str → Option PyDate) (uj rm : Str → Str)
    (hf : Str → Bool) (rows : List (List TableParser.Cell))
    (h : ∀ r ∈ rows, 4 ≤ r.length) :
    ∀ count, (londonAux sp uj rm hf count rows).2 = none := by
  induction rows with
  | nil => intro count; rfl
  | cons r rest ih =>
    intro count
    have hr : 4 ≤ r.length := h r (List.mem_cons_self _ _)
    have hc0 : r[0]? = some r[0] := List.getElem?_eq_getElem (by omega)
    have hc1 : r[1]? = some r[1] := List.getElem?_eq_getElem (by omega)
    have hc2 : r[2]? = some r[2] := List.getElem?_eq_getElem (by omega)
    have hc3 : r[3]? = some r[3] := List.getElem?_eq_getElem (by omega)
    have ihr := ih (fun x hx => h x (List.mem_cons_of_mem _ hx))
    simp only [londonAux, hc0, hc1, hc2, hc3]
    cases hsp : sp (r[1]).text with
    | none => exact ihr count
    | some date =>
      by_cases hb : count + 1 = londonNumberToFetch
      · simp [hb]
      · simp only [hb, if_false]
        exact ihr (count + 1)

lemma anchorageAux_no_err (l : List (Str × List Str × List (List Str)))
    (h : ∀ a ∈ l, a.2.1.flatten = "X".data →
      ∃ seg, (pySplit '/' a.1).reverse[1]? = some seg ∧ seg ≠ "VAA".data) :
    (anchorageAux l).2 = none := by
  induction l with
  | nil => rfl
  | cons a rest ih =>
    obtain ⟨href, text, row⟩ := a
    have ihr := ih (fun x hx => h x (List.mem_cons_of_mem _ hx))
    by_cases hx : text.flatten = "X".data
    · obtain ⟨seg, hseg, hne⟩ := h (href, text, row) (List.mem_cons_self _ _) hx
      simp only [anchorageAux, if_pos hx, hseg]
      rw [if_neg hne]
      exact ihr
    · simp only [anchorageAux, if_neg hx]
      exact ihr

/-- C2 (amended): the extractor state machines themselves are total — in
this embedding they carry no error channel, because every fallible call
in their handlers is guarded in the source — but the per-source assembly
loops are exception-free only for well-formed entry lists: for Toulouse
every href needs at least two path segments, for London every row at
least four cells, and for Anchorage every anchor whose joined text
passes the `"X"` filter needs a second-to-last href segment different
from `"VAA"` (otherwise the loop reaches
`strptime(table_text[0], ...)`, whose argument is a list, and raises).
On malformed entries the loops raise, as the counterexample shows. -/
theorem c2_loops_raise_free_only_when_well_formed :
    (∀ (rm : Str → Str) (hf : Str → Bool) (anchors : List (Str × Str × Str)),
        (∀ a ∈ anchors, 2 ≤ (pySplit '/' a.1).length) →
        (toulouseLoop rm hf anchors).2 = none) ∧
    (∀ (sp : Str → Option PyDate) (uj rm : Str → Str) (hf : Str → Bool)
        (rows : List (List TableParser.Cell)),
        (∀ r ∈ rows, 4 ≤ r.length) →
        (londonLoop sp uj rm hf rows).2 = none) ∧
    (∀ anchors : List (Str × List Str × List (List Str)),
        (∀ a ∈ anchors, a.2.1.flatten = "X".data →
          ∃ seg, (pySplit '/' a.1).reverse[1]? = some seg ∧ seg ≠ "VAA".data) →
        (anchorageLoop anchors).2 = none) :=
  ⟨fun rm hf anchors h => toulouseAux_no_err rm hf anchors h 0,
   fun sp uj rm hf rows h => londonAux_no_err sp uj rm hf rows h 0,
   fun anchors h => anchorageAux_no_err anchors h⟩

/-- C2 witness: well-formed concrete inputs on which each loop finishes
without raising. -/
theorem c2_witness :
    (toulouseLoop (fun _ => []) (fun _ => false)
        [("a/b".data, "V".data, "d".data)]).2 = none ∧
    (londonLoop (fun _ => none) (fun s => s) (fun _ => []) (fun _ => false)
        [[⟨"v".data, "h".data⟩, ⟨"t".data, "h".data⟩, ⟨"u".data, "h".data⟩,
          ⟨"w".data, "h".data⟩]]).2 = none ∧
    (anchorageLoop [("a/b".data, ["Y".data], [])]).2 = none :=
  ⟨c2_loops_raise_free_only_when_well_formed.1 (fun _ => []) (fun _ => false) _
      (by decide),
   c2_loops_raise_free_only_when_well_formed.2.1 (fun _ => none) (fun s => s)
      (fun _ => []) (fun _ => false) _ (by decide),
   c2_loops_raise_free_only_when_well_formed.2.2 _
      (by
        intro a ha hx
        rw [List.mem_singleton] at ha
        subst ha
        exact absurd hx (by decide))⟩

/-- C3 counterexample: in the Anchorage fetch a row that passes the link
filter reaches the timestamp-parsing call unprotected, so the whole
fetch raises instead of dropping just that row. -/
theorem c3_counterexample :
    anchorageLoop [("a/VAA/b".data, ["X".data], [["bad".data]])]
      = ([], some PyErr.typeError) := by
  decide

lemma londonAux_skip (sp : Str → Option PyDate) (uj rm : Str → Str)
    (hf : Str → Bool) (r : List TableParser.Cell) (h0 : r ≠ [])
    (h1 : ∀ c, r[1]? = some c → sp c.text = none) :
    ∀ (A : List (List TableParser.Cell)) (B : List (List TableParser.Cell))
      (count : Nat),
      londonAux sp uj rm hf count (A ++ r :: B)
        = londonAux sp uj rm hf count (A ++ B) := by
  intro A
  induction A with
  | nil =>
    intro B count
    obtain ⟨c0, hc0⟩ : ∃ c, r[0]? = some c := by
      cases r with
      | nil => exact absurd rfl h0
      | cons x xs => exact ⟨x, by simp⟩
    cases hc1 : r[1]? with
    | none => simp only [List.nil_append, londonAux, hc0, hc1]
    | some c1 =>
      have hsp := h1 c1 hc1
      simp only [List.nil_append, londonAux, hc0, hc1, hsp]
  | cons a A ih =>
    intro B count
    simp only [List.cons_append, londonAux]
    cases ha0 : a[0]? with
    | none => rfl
    | some c0 =>
      simp only
      cases ha1 : a[1]? with
      | none => exact ih B count
      | some c1 =>
        simp only
        cases hsp : sp c1.text with
        | none => exact ih B count
        | some date =>
          simp only
          cases ha2 : a[2]? with
          | none => rfl
          | some c2 =>
            simp only
            cases ha3 : a[3]? with
            | none => rfl
            | some c3 =>
              simp only
              by_cases hb : count + 1 = londonNumberToFetch
              · simp [hb]
              · simp only [hb, if_false, List.append_eq]
                rw [ih B (count + 1)]

/-- C3 (amended): in the London fetch a row whose timestamp text fails
to parse (or that has no second cell) is silently dropped and the
remaining rows are still processed exactly as if the row were absent; in
the Anchorage fetch, however, a row passing the link filter makes the
unguarded timestamp-parsing call raise, aborting the whole fetch
(counterexample), so the claim does not hold for every source. -/
theorem c3_london_unparseable_timestamp_row_dropped
    (sp : Str → Option PyDate) (uj rm : Str → Str) (hf : Str → Bool)
    (A B : List (List TableParser.Cell)) (r : List TableParser.Cell)
    (h0 : r ≠ [])
    (h1 : ∀ c, r[1]? = some c → sp c.text = none) :
    londonLoop sp uj rm hf (A ++ r :: B) = londonLoop sp uj rm hf (A ++ B) :=
  londonAux_skip sp uj rm hf r h0 h1 A B 0

/-- C3 witness: a concrete unparseable row is dropped, leaving the
result of the fetch without it. -/
theorem c3_witness :
    londonLoop (fun _ => none) (fun s => s) (fun _ => []) (fun _ => false)
        [[⟨"Volcano".data, "h".data⟩, ⟨"bad date".data, "h".data⟩]]
      = londonLoop (fun _ => none) (fun s => s) (fun _ => []) (fun _ => false) [] :=
  c3_london_unparseable_timestamp_row_dropped (fun _ => none) (fun s => s)
    (fun _ => []) (fun _ => false) [] []
    [⟨"Volcano".data, "h".data⟩, ⟨"bad date".data, "h".data⟩]
    (by decide) (fun c _ => rfl)

lemma toulouseAux_length (rm : Str → Str) (hf : Str → Bool)
    (l : List (Str × Str × Str)) :
    ∀ count, count < toulouseNumberToFetch →
      (toulouseAux rm hf count l).1.length ≤ toulouseNumberToFetch - count := by
  induction l with
  | nil => intro c hc; simp [toulouseAux]
  | cons a rest ih =>
    intro c hc
    obtain ⟨href, volcano, date⟩ := a
    simp only [toulouseAux]
    cases hseg : (pySplit '/' href).reverse[1]? with
    | none => simp
    | some seg =>
      simp only
      by_cases hb : c + 1 = toulouseNumberToFetch
      · rw [if_pos hb]
        simp only [List.length_singleton]
        omega
      · rw [if_neg hb]
        simp only [List.length_cons]
        have := ih (c + 1) (by omega)
        omega

lemma toulouseAux_sublist (rm : Str → Str) (hf : Str → Bool)
    (l : List (Str × Str × Str)) :
    ∀ count,
      ((toulouseAux rm hf count l).1.map Item.url).Sublist
        (l.map (fun a => a.1)) := by
  induction l with
  | nil => intro c; simp [toulouseAux]
  | cons a rest ih =>
    intro c
    obtain ⟨href, volcano, date⟩ := a
    simp only [toulouseAux, List.map_cons]
    cases hseg : (pySplit '/' href).reverse[1]? with
    | none => simp
    | some seg =>
      simp only
      by_cases hb : c + 1 = toulouseNumberToFetch
      · rw [if_pos hb]
        simp only [List.map_cons, List.map_nil]
        exact List.Sublist.cons₂ _ (List.nil_sublist _)
      · rw [if_neg hb]
        simp only [List.map_cons]
        exact List.Sublist.cons₂ _ (ih (c + 1))

lemma londonAux_length (sp : Str → Option PyDate) (uj rm : Str → Str)
    (hf : Str → Bool) (rows : List (List TableParser.Cell)) :
    ∀ count, count < londonNumberToFetch →
      (londonAux sp uj rm hf count rows).1.length ≤ londonNumberToFetch - count := by
  induction rows with
  | nil => intro c hc; simp [londonAux]
  | cons r rest ih =>
    intro c hc
    simp only [londonAux]
    cases hc0 : r[0]? with
    | none => simp
    | some c0 =>
      simp only
      cases hc1 : r[1]? with
      | none => exact ih c hc
      | some c1 =>
        simp only
        cases hsp : sp c1.text with
        | none => exact ih c hc
        | some date =>
          simp only
          cases hc2 : r[2]? with
          | none => simp
          | some c2 =>
            simp only
            cases hc3 : r[3]? with
            | none => simp
            | some c3 =>
              simp only
              by_cases hb : c + 1 = londonNumberToFetch
              · rw [if_pos hb]
                simp only [List.length_singleton]
                omega
              · rw [if_neg hb]
                simp only [List.length_cons]
                have := ih (c + 1) (by omega)
                omega

lemma londonAux_sublist (sp : Str → Option PyDate) (uj rm : Str → Str)
    (hf : Str → Bool) (rows : List (List TableParser.Cell)) :
    ∀ count,
      ((londonAux sp uj rm hf count rows).1.map Item.url).Sublist
        (rows.map (fun r => uj ((r[2]?.getD (TableParser.Cell.mk [] [])).href))) := by
  induction rows with
  | nil => intro c; simp [londonAux]
  | cons r rest ih =>
    intro c
    simp only [londonAux, List.map_cons]
    cases hc0 : r[0]? with
    | none => simp
    | some c0 =>
      simp only
      cases hc1 : r[1]? with
      | none => exact List.Sublist.cons _ (ih c)
      | some c1 =>
        simp only
        cases hsp : sp c1.text with
        | none => exact List.Sublist.cons _ (ih c)
        | some date =>
          simp only
          cases hc2 : r[2]? with
          | none => simp
          | some c2 =>
            simp only
            cases hc3 : r[3]? with
            | none => simp
            | some c3 =>
              simp only
              by_cases hb : c + 1 = londonNumberToFetch
              · rw [if_pos hb]
                simp only [List.map_cons, List.map_nil, hc2, Option.getD_some]
                exact List.Sublist.cons₂ _ (List.nil_sublist _)
              · rw [if_neg hb]
                simp only [List.map_cons, hc2, Option.getD_some]
                exact List.Sublist.cons₂ _ (ih (c + 1))

lemma anchorageAux_items (l : List (Str × List Str × List (List Str))) :
    (anchorageAux l).1 = [] := by
  induction l with
  | nil => rfl
  | cons a rest ih =>
    obtain ⟨href, text, row⟩ := a
    simp only [anchorageAux]
    by_cases hx : text.flatten = "X".data
    · simp only [if_pos hx]
      cases hseg : (pySplit '/' href).reverse[1]? with
      | none => rfl
      | some seg =>
        simp only
        by_cases hv : seg = "VAA".data
        · simp only [if_pos hv]
          cases row <;> rfl
        · simp only [if_neg hv]
          exact ih
    · simp only [if_neg hx]
      exact ih

lemma testFetch_length (sp : Str → Option PyDate) (hf : Str → Bool)
    (now : PyDate) (text : Str) :
    (testFetch sp hf now text).1.length ≤ testNumberToFetch := by
  unfold testFetch
  cases testFetchLines sp now "Unknown".data (pySplit '\n' text) with
  | error e => simp
  | ok p => simp [testNumberToFetch]

/-- C5: every fetch loop returns at most its source's configured
`number_to_fetch` items (10 for Toulouse, London and Anchorage, 1 for
the test source), even when the page lists more entries, and the
returned items appear in document order: the sequence of their advisory
URLs is a sublist (order-preserving selection) of the per-entry URLs in
page order. -/
theorem c5_fetch_limit_and_document_order :
    (∀ (rm : Str → Str) (hf : Str → Bool) (anchors : List (Str × Str × Str)),
        (toulouseLoop rm hf anchors).1.length ≤ toulouseNumberToFetch ∧
        ((toulouseLoop rm hf anchors).1.map Item.url).Sublist
          (anchors.map (fun a => a.1))) ∧
    (∀ (sp : Str → Option PyDate) (uj rm : Str → Str) (hf : Str → Bool)
        (rows : List (List TableParser.Cell)),
        (londonLoop sp uj rm hf rows).1.length ≤ londonNumberToFetch ∧
        ((londonLoop sp uj rm hf rows).1.map Item.url).Sublist
          (rows.map (fun r => uj ((r[2]?.getD (TableParser.Cell.mk [] [])).href)))) ∧
    (∀ anchors : List (Str × List Str × List (List Str)),
        (anchorageLoop anchors).1.length ≤ anchorageNumberToFetch) ∧
    (∀ (sp : Str → Option PyDate) (hf : Str → Bool) (now : PyDate) (text : Str),
        (testFetch sp hf now text).1.length ≤ testNumberToFetch) := by
  refine ⟨fun rm hf anchors => ⟨?_, toulouseAux_sublist rm hf anchors 0⟩,
          fun sp uj rm hf rows => ⟨?_, londonAux_sublist sp uj rm hf rows 0⟩,
          fun anchors => ?_,
          fun sp hf now text => testFetch_length sp hf now text⟩
  · simpa using toulouseAux_length rm hf anchors 0 (by norm_num [toulouseNumberToFetch])
  · simpa using londonAux_length sp uj rm hf rows 0 (by norm_num [londonNumberToFetch])
  · simp [anchorageLoop, anchorageAux_items]

/-- C10 witness: concrete chunks showing the missing separator after the
activating chunk and the single space between later chunks. -/
theorem c10_witness :
    (VAAParser.run VAAParser.State.init
        (TagEvent.textData "junk VA ADVISORY head".data ::
          [TagEvent.startTag "b".data [], TagEvent.textData "  ".data] ++
          [TagEvent.textData " middle ".data, TagEvent.textData "end".data])).text
      = "VA ADVISORY head".data ++ "middle".data ++ [' '] ++ "end".data ++ [' '] :=
  c10_activating_chunk_not_space_terminated
    "junk VA ADVISORY head".data " middle ".data "end".data
    [TagEvent.startTag "b".data [], TagEvent.textData "  ".data] 5
    (by decide) (by decide) (by decide) (by decide) (by decide)
